import Mathlib

/-!
Shallow embedding of the FTX REST client (`src/rest/client.py`) and proofs of
the specification claims about it.

Modelling conventions:
* Python byte strings are `List Nat` (each entry a byte value `< 256`).
* Python floats (prices, sizes) are modelled as `Rat`: they are only carried
  into request bodies, never computed with.
* Trade timestamps are modelled as `Int` (the pagination logic only compares
  and takes minima of them).
* Python `dict` request bodies are association lists `List (String × Val)`
  in insertion order.
* A fallible Python function (one that may raise) returns `Except String _`,
  the `String` being the raised message.
-/

namespace FtxSpec

/-- A JSON-ish value as it appears in request bodies and response payloads. -/
inductive Val where
  | str (s : String)
  | num (q : Rat)
  | bool (b : Bool)
  | null
  deriving DecidableEq, Repr

/-- `True`-ness of an optional string in the Python sense:
`None` and the empty string are falsy, every other string truthy. -/
def truthyStr : Option String → Bool
  | none => false
  | some s => !s.isEmpty

/-- Whether an `Except` is an error (a raised exception). -/
def isErr {α : Type} : Except String α → Bool
  | .error _ => true
  | .ok _ => false

/-! ## Response processing (`FtxClient._process_response`) -/

/-- The body of an HTTP response as seen by `_process_response`: either
`response.json()` raises `ValueError` (unparsable), or it yields an envelope
`{success, error, result}`. -/
inductive RespBody where
  | unparsable
  | parsed (success : Bool) (error : String) (result : Val)
  deriving DecidableEq, Repr

/-- An HTTP response: a body together with its status code. -/
structure Response where
  body : RespBody
  status_code : Nat
  deriving DecidableEq, Repr

/-- The observable outcome of `_process_response`:
* `httpError s` — `response.raise_for_status()` raised `HTTPError` for status `s`;
* `parseError` — the `ValueError` from `response.json()` was re-raised;
* `appError msg` — `Exception(data['error'])` was raised;
* `ok r` — `data['result']` was returned. -/
inductive Outcome where
  | httpError (status : Nat)
  | parseError
  | appError (msg : String)
  | ok (result : Val)
  deriving DecidableEq, Repr

/-- Does `requests.Response.raise_for_status` raise for this status code?
It raises exactly for 4xx and 5xx codes. -/
def isErrorStatus (status : Nat) : Bool :=
  400 ≤ status && status < 600

/-- Embedding of `FtxClient._process_response`:
`try: data = response.json() / except ValueError: response.raise_for_status(); raise`
`else: if not data['success']: raise Exception(data['error']) / return data['result']`. -/
def process_response (r : Response) : Outcome :=
  match r.body with
  | .unparsable =>
      if isErrorStatus r.status_code then .httpError r.status_code else .parseError
  | .parsed success error result =>
      if !success then .appError error else .ok result

/-! ## `FtxClient.modify_order` -/

/-- A prepared REST request: the path posted to and the JSON body
(an association list in insertion order). -/
abbrev ReqBody := List (String × Val)

/-- Embedding of `FtxClient.modify_order`.  The two `assert` statements run
before any request is built; a failed assertion raises `AssertionError` with
the given message.  On success the `(path, body)` pair handed to `_post` is
returned. -/
def modify_order (existing_order_id existing_client_order_id : Option String)
    (price size : Option Rat) (client_order_id : Option String) :
    Except String (String × ReqBody) :=
  if !((existing_order_id.isNone) ^^ (existing_client_order_id.isNone)) then
    .error "Must supply exactly one ID for the order to modify"
  else if !(price.isNone || size.isNone) then
    .error "Must modify price or size of order"
  else
    let path := match existing_order_id with
      | some i => s!"orders/{i}/modify"
      | none =>
        -- unreachable with both ids absent (the first assert rules it out);
        -- Python would render `None` into the f-string
        match existing_client_order_id with
        | some j => s!"orders/by_client_id/{j}/modify"
        | none => "orders/by_client_id/None/modify"
    .ok (path,
      (match size with | some v => [("size", Val.num v)] | none => []) ++
      (match price with | some v => [("price", Val.num v)] | none => []) ++
      (match client_order_id with | some v => [("clientId", Val.str v)] | none => []))

/-! ## `FtxClient.place_conditional_order` -/

/-- A Python value that is either a float or `None`, as it lands in a JSON body. -/
def optNum : Option Rat → Val
  | none => .null
  | some v => .num v

/-- Embedding of `FtxClient.place_conditional_order`.  The three `assert`
statements run first; on success the `(path, body)` pair handed to `_post`
is returned.  Note the body hardcodes `'type': 'stop'` and never mentions
`trail_value`, exactly as the source does. -/
def place_conditional_order (market side : String) (size : Rat) (type : String)
    (limit_price : Option Rat) (reduce_only : Bool) (cancel : Bool)
    (trigger_price : Option Rat) (trail_value : Option Rat) :
    Except String (String × ReqBody) :=
  if !(type = "stop" || type = "take_profit" || type = "trailing_stop" : Bool) then
    .error "assertion failed"
  else if !(!(type = "stop" || type = "take_profit" : Bool) || trigger_price.isSome) then
    .error "Need trigger prices for stop losses and take profits"
  else if !(!(type = "trailing_stop" : Bool) ||
            (trigger_price.isNone && trail_value.isSome)) then
    .error "Trailing stops need a trail value and cannot take a trigger price"
  else
    .ok ("conditional_orders",
      [("market", Val.str market), ("side", Val.str side),
       ("triggerPrice", optNum trigger_price), ("size", Val.num size),
       ("reduceOnly", Val.bool reduce_only), ("type", Val.str "stop"),
       ("cancelLimitOnTrigger", Val.bool cancel), ("orderPrice", optNum limit_price)])

/-! ## `FtxClient.get_position` -/

/-- A position object as returned inside the `get_positions` payload: the
`future` field the filter inspects, plus the rest of the object. -/
structure Position where
  future : String
  fields : List (String × Val)
  deriving DecidableEq, Repr

/-- Embedding of `FtxClient.get_position`:
`next(filter(lambda x: x['future'] == name, self.get_positions(...)), None)`.
The positions list returned by `get_positions` is passed in explicitly. -/
def get_position (positions : List Position) (name : String) : Option Position :=
  positions.find? (fun x => x.future == name)

/-! ## `FtxClient.get_all_trades` (paginated trade fetch) -/

/-- A trade record as the pagination loop sees it: the unique `id` and the
`time` timestamp it inspects (other fields are irrelevant to the loop). -/
structure Trade where
  id : Nat
  time : Int
  deriving DecidableEq, Repr

/-- The fixed page size `limit = 100` of `get_all_trades`. -/
def pageLimit : Nat := 100

/-- `min(t['time'] for t in response)` for a nonempty `response`
(the loop only evaluates it after checking `len(response) != 0`;
the `[]` case is an arbitrary default). -/
def minTime : List Trade → Int
  | [] => 0
  | t :: ts => ts.foldl (fun m r => min m r.time) t.time

/-- Embedding of the `while True` loop of `FtxClient.get_all_trades`.

`fetch et` models `self._get(f'markets/{market}/trades', {'end_time': et,
'start_time': start_time, 'order': order})` — the market, `start_time` and
`order` arguments never change across iterations, so they are folded into
`fetch`; only `end_time` varies.

`fuel` bounds the number of iterations we are willing to run: `none` means the
loop did not finish within `fuel` iterations.  On termination the result is
`(results, pages)` where `results` is the returned list and `pages` the number
of pages fetched. -/
def getAllTradesLoop (fetch : Option Int → List Trade) :
    Nat → Option Int → List Nat → List Trade → Option (List Trade × Nat)
  | 0, _, _, _ => none
  | fuel + 1, end_time, ids, results =>
      let response := fetch end_time
      let deduped_trades := response.filter (fun r => !ids.contains r.id)
      let results' := results ++ deduped_trades
      let ids' := ids ++ deduped_trades.map Trade.id
      if response.length = 0 then some (results', 1)
      else
        let end_time' := some (minTime response)
        if response.length < pageLimit then some (results', 1)
        else
          match getAllTradesLoop fetch fuel end_time' ids' results' with
          | none => none
          | some (res, n) => some (res, n + 1)

/-- Embedding of `FtxClient.get_all_trades`: the loop started with
`ids = set()` and `results = []` on the caller-supplied initial `end_time`. -/
def get_all_trades (fetch : Option Int → List Trade) (end_time : Option Int)
    (fuel : Nat) : Option (List Trade × Nat) :=
  getAllTradesLoop fetch fuel end_time [] []

/-- Modelled from the spec (§4.3), word for word, as an independent rendering
to compare the source loop against: "request a page ... with the current
`end_time`; filter out any record whose id was already seen; append survivors
to the accumulated result and add their ids to the seen set; if the page
returned zero records, stop; otherwise advance `end_time` to the minimum
`time` value observed in that page; if the page size returned was smaller
than the fixed page size, stop". -/
def getAllTradesSpec (fetch : Option Int → List Trade) :
    Nat → Option Int → List Nat → List Trade → Option (List Trade)
  | 0, _, _, _ => none
  | fuel + 1, end_time, seen, acc =>
      let page := fetch end_time
      let survivors := page.filter (fun r => !seen.contains r.id)
      let acc' := acc ++ survivors
      let seen' := seen ++ survivors.map Trade.id
      match page with
      | [] => some acc'
      | t :: rest =>
          let end_time' := (rest.map Trade.time).foldr (fun x m => min x m) t.time
          if page.length < pageLimit then some acc'
          else getAllTradesSpec fetch fuel (some end_time') seen' acc'

/-- Is a trade inside the queried window, i.e. is its `time` at most the
requested `end_time` (`none` requests everything)? -/
def inWindow (et : Option Int) (t : Trade) : Bool :=
  match et with
  | none => true
  | some e => t.time ≤ e

/-- Models the exchange endpoint of §4.3 and the glossary ("cursor/pagination
by time"): the trades of a finite dataset `db` whose `time` is at most the
requested `end_time` (all of them when no `end_time` is given), at most
`pageLimit` per page.  `db` is kept newest-first, so `take` keeps the newest. -/
def serve (db : List Trade) (et : Option Int) : List Trade :=
  (db.filter (inWindow et)).take pageLimit

/-- How much of the dataset the current cursor still reaches ("the remaining
data" of the termination argument). -/
def remaining (db : List Trade) (et : Option Int) : Nat :=
  (db.filter (inWindow et)).length

/-! ### Concrete page scenarios for the pagination claims -/

/-- First page of the `[100, 100, 40]` scenario: ids `0..99`, times
`200` down to `101` (newest first). -/
def page1 : List Trade := (List.range 100).map (fun i => ⟨i, 200 - (i : Int)⟩)

/-- Second page: repeats the boundary trade (id `99`, time `101`) and adds
ids `100..198` with times `101` down to `3`. -/
def page2 : List Trade :=
  ⟨99, 101⟩ :: (List.range 99).map (fun i => ⟨100 + i, 101 - (i : Int)⟩)

/-- Third page (size 40 < 100): repeats the boundary trade (id `198`,
time `3`) and adds ids `199..237` at time `2`. -/
def page3 : List Trade :=
  ⟨198, 3⟩ :: (List.range 39).map (fun i => ⟨199 + i, 2⟩)

/-- An endpoint returning the three-page scenario of the spec: pages of
sizes `[100, 100, 40]` with overlapping ids at the page boundaries, keyed by
the `end_time` cursor values the loop computes (`none`, then `101`, then `3`). -/
def fetch3 (et : Option Int) : List Trade :=
  if et = none then page1
  else if et = some 101 then page2
  else if et = some 3 then page3
  else []

/-- A dataset of exactly `pageLimit` trades all sharing time `5`: the endpoint
keeps serving this very page for every `end_time ≤ 5` cursor, so the loop
never advances. -/
def dbBad : List Trade := (List.range 100).map (fun i => ⟨i, 5⟩)

/-- A small dataset with three distinct times (used to witness termination). -/
def db3 : List Trade := [⟨1, 10⟩, ⟨2, 7⟩, ⟨3, 4⟩]

/-- The natural number a big-endian byte string denotes (used to count the
possible HMAC digests). -/
def bytesToNat : List Nat → Nat
  | [] => 0
  | b :: bs => b * 256 ^ bs.length + bytesToNat bs


/-! ## Byte-level encodings used by `FtxClient._sign_request` -/

/-- The decimal digit character for `n < 10`. -/
def digitChar (n : Nat) : Char := Char.ofNat (48 + n)

/-- Decimal digits of `n`, most significant first; `fuel` bounds recursion
depth (any `fuel > n` is enough, see `natDecimalAux_parse`). -/
def natDecimalAux : Nat → Nat → List Char
  | 0, _ => []
  | fuel + 1, n =>
      if n < 10 then [digitChar n]
      else natDecimalAux fuel (n / 10) ++ [digitChar (n % 10)]

/-- The decimal rendering of a natural number, as Python's `str`/f-string
renders the timestamp `int(time.time() * 1000)`. -/
def natDecimal (n : Nat) : String := ⟨natDecimalAux (n + 1) n⟩

/-- The value a decimal digit string denotes (used to prove `natDecimal`
injective by a round trip). -/
def parseDecimal (cs : List Char) : Nat :=
  cs.foldl (fun a c => a * 10 + (c.toNat - 48)) 0

/-- The UTF-8 encoding of a code point. -/
def utf8Enc (n : Nat) : List Nat :=
  if n < 128 then [n]
  else if n < 2048 then [192 + n / 64, 128 + n % 64]
  else if n < 65536 then [224 + n / 4096, 128 + n / 64 % 64, 128 + n % 64]
  else [240 + n / 262144, 128 + n / 4096 % 64, 128 + n / 64 % 64, 128 + n % 64]

/-- The UTF-8 encoding of one character, as `str.encode()` produces it. -/
def utf8Bytes (c : Char) : List Nat := utf8Enc c.toNat

/-- `s.encode()`: the UTF-8 bytes of a string. -/
def strBytes (s : String) : List Nat := (s.data.map utf8Bytes).flatten

/-- Hexadecimal digit character for `n < 16` (lowercase, as `hexdigest`). -/
def hexChar (n : Nat) : Char :=
  if n < 10 then Char.ofNat (48 + n) else Char.ofNat (87 + n)

/-- Two hex characters for one byte. -/
def hexByte (b : Nat) : List Char := [hexChar (b / 16), hexChar (b % 16)]

/-- `hexdigest()` of a byte string. -/
def hexOfBytes (bs : List Nat) : String := ⟨(bs.map hexByte).flatten⟩

/-- Is a byte kept as-is by `urllib.parse.quote` with its default `safe='/'`?
Unreserved characters (letters, digits, `_.-~`) and `/`. -/
def quoteSafe (b : Nat) : Bool :=
  (48 ≤ b && b ≤ 57) || (65 ≤ b && b ≤ 90) || (97 ≤ b && b ≤ 122) ||
  b = 95 || b = 46 || b = 45 || b = 126 || b = 47

/-- `urllib.parse.quote(s)`: percent-encode every byte of the UTF-8 encoding
of `s` that is not safe (`%XX` uses uppercase hex in Python; we follow that). -/
def urlQuote (s : String) : String :=
  ⟨((strBytes s).map (fun b =>
      if quoteSafe b then [Char.ofNat b]
      else ['%', (hexByte b).get! 0 |>.toUpper, (hexByte b).get! 1 |>.toUpper])).flatten⟩

/-! ## SHA-256 and HMAC (the `hmac.new(..., 'sha256')` the source invokes)

32-bit words are `Nat`s kept below `2 ^ 32` by explicit `% 4294967296`. -/

/-- `2 ^ 32`. -/
def w32 : Nat := 4294967296

/-- Addition modulo `2 ^ 32`. -/
def add32 (a b : Nat) : Nat := (a + b) % w32

/-- Right rotation of a 32-bit word by `k`. -/
def rotr32 (k n : Nat) : Nat := ((n >>> k) ||| (n <<< (32 - k))) % w32

/-- Bitwise complement of a 32-bit word. -/
def not32 (n : Nat) : Nat := n ^^^ 4294967295

/-- SHA-256 `Ch(e,f,g)`. -/
def shaCh (e f g : Nat) : Nat := (e &&& f) ^^^ (not32 e &&& g)

/-- SHA-256 `Maj(a,b,c)`. -/
def shaMaj (a b c : Nat) : Nat := (a &&& b) ^^^ (a &&& c) ^^^ (b &&& c)

/-- SHA-256 `Σ0`. -/
def bigSig0 (x : Nat) : Nat := rotr32 2 x ^^^ rotr32 13 x ^^^ rotr32 22 x

/-- SHA-256 `Σ1`. -/
def bigSig1 (x : Nat) : Nat := rotr32 6 x ^^^ rotr32 11 x ^^^ rotr32 25 x

/-- SHA-256 `σ0`. -/
def smallSig0 (x : Nat) : Nat := rotr32 7 x ^^^ rotr32 18 x ^^^ (x >>> 3)

/-- SHA-256 `σ1`. -/
def smallSig1 (x : Nat) : Nat := rotr32 17 x ^^^ rotr32 19 x ^^^ (x >>> 10)

/-- The 64 SHA-256 round constants. -/
def shaK : List Nat :=
  [1116352408, 1899447441, 3049323471, 3921009573, 961987163, 1508970993,
   2453635748, 2870763221, 3624381080, 310598401, 607225278, 1426881987,
   1925078388, 2162078206, 2614888103, 3248222580, 3835390401, 4022224774,
   264347078, 604807628, 770255983, 1249150122, 1555081692, 1996064986,
   2554220882, 2821834349, 2952996808, 3210313671, 3336571891, 3584528711,
   113926993, 338241895, 666307205, 773529912, 1294757372, 1396182291,
   1695183700, 1986661051, 2177026350, 2456956037, 2730485921, 2820302411,
   3259730800, 3345764771, 3516065817, 3600352804, 4094571909, 275423344,
   430227734, 506948616, 659060556, 883997877, 958139571, 1322822218,
   1537002063, 1747873779, 1955562222, 2024104815, 2227730452, 2361852424,
   2428436474, 2756734187, 3204031479, 3329325298]

/-- The SHA-256 working state (eight 32-bit words). -/
structure ShaState where
  a : Nat
  b : Nat
  c : Nat
  d : Nat
  e : Nat
  f : Nat
  g : Nat
  h : Nat
  deriving DecidableEq, Repr

/-- The SHA-256 initial hash value. -/
def shaInit : ShaState :=
  ⟨1779033703, 3144134277, 1013904242, 2773480762,
   1359893119, 2600822924, 528734635, 1541459225⟩

/-- One SHA-256 compression round with round constant `ki` and schedule
word `wi`. -/
def shaRound (st : ShaState) (ki wi : Nat) : ShaState :=
  let t1 := add32 st.h (add32 (bigSig1 st.e) (add32 (shaCh st.e st.f st.g) (add32 ki wi)))
  let t2 := add32 (bigSig0 st.a) (shaMaj st.a st.b st.c)
  ⟨add32 t1 t2, st.a, st.b, st.c, add32 st.d t1, st.e, st.f, st.g⟩

/-- Extends the message schedule: `steps` more words are appended to the
reversed schedule `rws` (most recent word first). -/
def scheduleAux : Nat → List Nat → List Nat
  | 0, rws => rws.reverse
  | steps + 1, rws =>
      scheduleAux steps
        (add32 (add32 (smallSig1 (rws.getD 1 0)) (rws.getD 6 0))
               (add32 (smallSig0 (rws.getD 14 0)) (rws.getD 15 0)) :: rws)

/-- The 64-word message schedule of a 16-word block. -/
def schedule (ws : List Nat) : List Nat := scheduleAux 48 ws.reverse

/-- Adds two SHA-256 states word-wise modulo `2 ^ 32`. -/
def addState (x y : ShaState) : ShaState :=
  ⟨add32 x.a y.a, add32 x.b y.b, add32 x.c y.c, add32 x.d y.d,
   add32 x.e y.e, add32 x.f y.f, add32 x.g y.g, add32 x.h y.h⟩

/-- Compresses one 16-word block into the running hash value. -/
def compressBlock (H : ShaState) (ws : List Nat) : ShaState :=
  addState H (((schedule ws).zip shaK).foldl (fun st p => shaRound st p.2 p.1) H)

/-- Big-endian bytes of a 64-bit length field. -/
def lenBytes64 (n : Nat) : List Nat :=
  [n / 72057594037927936 % 256, n / 281474976710656 % 256,
   n / 1099511627776 % 256, n / 4294967296 % 256,
   n / 16777216 % 256, n / 65536 % 256, n / 256 % 256, n % 256]

/-- SHA-256 padding: `0x80`, zeros to 56 mod 64, then the bit length. -/
def padMessage (msg : List Nat) : List Nat :=
  msg ++ 128 :: List.replicate ((119 - msg.length % 64) % 64) 0 ++
    lenBytes64 (8 * msg.length)

/-- Big-endian 32-bit words of a byte list (length a multiple of 4). -/
def toWords : List Nat → List Nat
  | b0 :: b1 :: b2 :: b3 :: rest =>
      (b0 * 16777216 + b1 * 65536 + b2 * 256 + b3) :: toWords rest
  | _ => []

/-- Splits a word list into 16-word blocks. -/
def blocks16 : List Nat → List (List Nat)
  | w0 :: w1 :: w2 :: w3 :: w4 :: w5 :: w6 :: w7 :: w8 :: w9 :: w10 :: w11 ::
    w12 :: w13 :: w14 :: w15 :: rest =>
      [w0, w1, w2, w3, w4, w5, w6, w7, w8, w9, w10, w11, w12, w13, w14, w15] ::
        blocks16 rest
  | _ => []

/-- Big-endian bytes of a 32-bit word. -/
def wordBytes (w : Nat) : List Nat :=
  [w / 16777216 % 256, w / 65536 % 256, w / 256 % 256, w % 256]

/-- The 32 digest bytes of a final SHA-256 state. -/
def digestBytes (H : ShaState) : List Nat :=
  wordBytes H.a ++ wordBytes H.b ++ wordBytes H.c ++ wordBytes H.d ++
  wordBytes H.e ++ wordBytes H.f ++ wordBytes H.g ++ wordBytes H.h

/-- SHA-256 of a byte string, as 32 digest bytes. -/
def sha256 (msg : List Nat) : List Nat :=
  digestBytes ((blocks16 (toWords (padMessage msg))).foldl compressBlock shaInit)

/-- HMAC-SHA256 (`hmac.new(key, msg, 'sha256').digest()`): block size 64. -/
def hmacSha256 (key msg : List Nat) : List Nat :=
  let k0 := if 64 < key.length then sha256 key else key
  let k := k0 ++ List.replicate (64 - k0.length) 0
  sha256 (k.map (fun b => b ^^^ 92) ++ sha256 (k.map (fun b => b ^^^ 54) ++ msg))

/-! ## `FtxClient._sign_request` -/

/-- The credentials a client is constructed with (`FtxClient.__init__`).
`api_key`/`api_secret` are used as strings by `_sign_request`; the optional
`subaccount_name` may also be the empty string (Python `None` and `''` are
both falsy). -/
structure Client where
  api_key : String
  api_secret : String
  subaccount_name : Option String
  deriving DecidableEq, Repr

/-- The signature payload of `_sign_request`:
`f'{ts}{prepared.method}{prepared.path_url}'.encode()`, with
`prepared.body` appended when it is truthy (a nonempty byte string). -/
def signaturePayload (ts : Nat) (method path_url : String) (body : List Nat) :
    List Nat :=
  strBytes (natDecimal ts ++ method ++ path_url) ++
    (if body.isEmpty then [] else body)

/-- The hex signature `_sign_request` computes:
`hmac.new(self._api_secret.encode(), signature_payload, 'sha256').hexdigest()`. -/
def signatureOf (api_secret : String) (ts : Nat) (method path_url : String)
    (body : List Nat) : String :=
  hexOfBytes (hmacSha256 (strBytes api_secret) (signaturePayload ts method path_url body))

/-- Embedding of `FtxClient._sign_request`: the headers it attaches, in
order.  `ts` is the millisecond timestamp captured at signing time; `method`,
`path_url` and `body` are those of the prepared request. -/
def sign_request (c : Client) (ts : Nat) (method path_url : String)
    (body : List Nat) : List (String × String) :=
  [("FTX-KEY", c.api_key),
   ("FTX-SIGN", signatureOf c.api_secret ts method path_url body),
   ("FTX-TS", natDecimal ts)] ++
  (if truthyStr c.subaccount_name then
    [("FTX-SUBACCOUNT", urlQuote (c.subaccount_name.getD ""))]
   else [])

/-- The HMAC digest of one fixed request, as a number, as a function of the
timestamp alone (used to count the possible signatures of that request). -/
def sigDigestNat (ts : Nat) : Nat :=
  bytesToNat (hmacSha256 (strBytes "secret")
    (signaturePayload ts "GET" "/api/markets" []))

/-! ## Helper lemmas -/

theorem isErr_eq_false {α : Type} (e : Except String α) :
    isErr e = false ↔ ∃ a, e = .ok a := by
  cases e <;> simp [isErr]

/-! ## C2: response processing -/

/-- C2 (amended): `_process_response` surfaces, for an unparsable body, a
transport-level failure — the HTTP status when it is an error status (4xx/5xx),
otherwise the parse failure itself — never a payload nor an application
failure; for a parsed envelope with `success = false` it fails with the
envelope's `error` field and returns no payload; otherwise it returns exactly
the envelope's `result` field. -/
theorem process_response_cases (r : Response) :
    (r.body = .unparsable →
      process_response r =
        (if isErrorStatus r.status_code then .httpError r.status_code
         else .parseError) ∧
      (∀ v, process_response r ≠ .ok v) ∧
      (∀ m, process_response r ≠ .appError m)) ∧
    (∀ err res, r.body = .parsed false err res →
      process_response r = .appError err ∧ ∀ v, process_response r ≠ .ok v) ∧
    (∀ err res, r.body = .parsed true err res → process_response r = .ok res) := by
  obtain ⟨body, status⟩ := r
  refine ⟨?_, ?_, ?_⟩
  · rintro rfl
    by_cases h : isErrorStatus status <;> simp [process_response, h]
  · rintro err res rfl
    simp [process_response]
  · rintro err res rfl
    simp [process_response]

/-- C2 counterexample: for an unparsable body with a success status (200),
the call surfaces the re-raised parse failure, which does not propagate the
underlying HTTP status. -/
theorem process_response_status200_counterexample :
    process_response ⟨.unparsable, 200⟩ = .parseError ∧
    Outcome.parseError ≠ Outcome.httpError 200 := by
  exact ⟨rfl, by decide⟩

/-! ## C6: `modify_order` validation -/

/-- C6: `modify_order` raises before any request is built exactly when the
exclusive-or of the two order identifiers is violated (both supplied or
neither) or both `price` and `size` are supplied; otherwise validation passes
and the `(path, body)` request is produced for `_post`. -/
theorem modify_order_validation (eo ec : Option String) (price size : Option Rat)
    (cid : Option String) :
    (isErr (modify_order eo ec price size cid) = true ↔
      ((eo ≠ none ∧ ec ≠ none) ∨ (eo = none ∧ ec = none) ∨
       (price ≠ none ∧ size ≠ none))) ∧
    (isErr (modify_order eo ec price size cid) = false →
      ∃ pb, modify_order eo ec price size cid = .ok pb) := by
  refine ⟨?_, (isErr_eq_false _).mp⟩
  rcases eo with _ | i <;> rcases ec with _ | j <;>
    rcases price with _ | p <;> rcases size with _ | s <;>
      simp [modify_order, isErr]

/-! ## C7: `place_conditional_order` validation -/

/-- C7: `place_conditional_order` passes its assertions (and only then sends
a request) exactly when the type is one of `stop`, `take_profit`,
`trailing_stop`; a trigger price is supplied for `stop`/`take_profit`; and a
trailing stop has a trail value and no trigger price. -/
theorem place_conditional_order_validation (market side : String) (size : Rat)
    (type : String) (lp : Option Rat) (ro ca : Bool) (tp tv : Option Rat) :
    (isErr (place_conditional_order market side size type lp ro ca tp tv) = false ↔
      ((type = "stop" ∨ type = "take_profit" ∨ type = "trailing_stop") ∧
       ((type = "stop" ∨ type = "take_profit") → tp ≠ none) ∧
       (type = "trailing_stop" → tp = none ∧ tv ≠ none))) ∧
    (isErr (place_conditional_order market side size type lp ro ca tp tv) = false →
      ∃ pb, place_conditional_order market side size type lp ro ca tp tv = .ok pb) := by
  refine ⟨?_, (isErr_eq_false _).mp⟩
  by_cases h1 : type = "stop" <;> by_cases h2 : type = "take_profit" <;>
    by_cases h3 : type = "trailing_stop" <;>
      rcases tp with _ | a <;> rcases tv with _ | b <;>
        simp_all [place_conditional_order, isErr]

/-! ## C9: the conditional-order request body -/

/-- C9: every request body `place_conditional_order` actually sends has
exactly the eight keys of the source dict, carries the literal type `'stop'`
whatever validated `type` was passed, and does not depend on the
`trail_value` argument in any way. -/
theorem place_conditional_order_request (market side : String) (size : Rat)
    (type : String) (lp : Option Rat) (ro ca : Bool) (tp tv : Option Rat)
    (r : String × ReqBody)
    (h : place_conditional_order market side size type lp ro ca tp tv = .ok r) :
    r.1 = "conditional_orders" ∧
    r.2.map Prod.fst = ["market", "side", "triggerPrice", "size", "reduceOnly",
      "type", "cancelLimitOnTrigger", "orderPrice"] ∧
    r.2.lookup "type" = some (Val.str "stop") ∧
    (∀ tv' r', place_conditional_order market side size type lp ro ca tp tv' = .ok r' →
      r' = r) := by
  unfold place_conditional_order at h
  split at h
  · exact absurd h (by simp)
  · split at h
    · exact absurd h (by simp)
    · split at h
      · exact absurd h (by simp)
      · simp only [Except.ok.injEq] at h
        subst h
        refine ⟨rfl, by simp, by simp [List.lookup], ?_⟩
        intro tv' r' h'
        unfold place_conditional_order at h'
        repeat'
          first
            | exact Except.noConfusion h'
            | (simp only [Except.ok.injEq] at h'; exact h'.symm)
            | split at h'

/-- Witness for C9: a validated `take_profit` order goes out with body type
`'stop'`. -/
theorem place_conditional_order_request_witness :
    (place_conditional_order "BTC-PERP" "buy" 1 "take_profit" none false true
        (some 100) (some 5)).map (fun r => r.2.lookup "type") =
      .ok (some (Val.str "stop")) := by
  have h : place_conditional_order "BTC-PERP" "buy" 1 "take_profit" none false true
      (some 100) (some 5) = .ok ("conditional_orders",
        [("market", Val.str "BTC-PERP"), ("side", Val.str "buy"),
         ("triggerPrice", optNum (some 100)), ("size", Val.num 1),
         ("reduceOnly", Val.bool false), ("type", Val.str "stop"),
         ("cancelLimitOnTrigger", Val.bool true), ("orderPrice", optNum none)]) := by
    rfl
  have h2 := place_conditional_order_request "BTC-PERP" "buy" 1 "take_profit"
    none false true (some 100) (some 5) _ h
  rw [h]
  simpa [Except.map] using h2.2.2.1

/-! ## C8: `get_position` -/

/-- C8: `get_position` returns the first position whose `future` field equals
the requested name — every position before it in the list has a different
`future` — and returns `None` (not a failure) exactly when no position
matches. -/
theorem get_position_first_match (positions : List Position) (name : String) :
    (∀ p, get_position positions name = some p →
      p.future = name ∧ ∃ pre post, positions = pre ++ p :: post ∧
        ∀ q ∈ pre, q.future ≠ name) ∧
    (get_position positions name = none ↔ ∀ q ∈ positions, q.future ≠ name) := by
  constructor
  · induction positions with
    | nil => intro p h; simp [get_position] at h
    | cons x xs ih =>
        intro p h
        rw [get_position, List.find?_cons] at h
        cases hb : (x.future == name) with
        | true =>
            rw [hb] at h
            obtain rfl : x = p := by simpa using h
            exact ⟨by simpa using hb, [], xs, rfl, by simp⟩
        | false =>
            rw [hb] at h
            obtain ⟨hf, pre, post, rfl, hall⟩ := ih p h
            refine ⟨hf, x :: pre, post, rfl, ?_⟩
            intro q hq
            rcases List.mem_cons.mp hq with rfl | hq'
            · simpa using hb
            · exact hall q hq'
  · rw [get_position, List.find?_eq_none]
    simp

/-! ## C10: headers attached by `_sign_request` -/

/-- C10: the key, signature and timestamp headers are always attached; the
sub-account header is attached (URL-escaped) exactly when the configured
`subaccount_name` is truthy, so a client configured with the empty string
behaves identically to one with no sub-account at all. -/
theorem sign_request_subaccount (c : Client) (ts : Nat) (method path_url : String)
    (body : List Nat) :
    ((sign_request c ts method path_url body).lookup "FTX-SUBACCOUNT" =
      if truthyStr c.subaccount_name then some (urlQuote (c.subaccount_name.getD ""))
      else none) ∧
    (sign_request { c with subaccount_name := some "" } ts method path_url body =
      sign_request { c with subaccount_name := none } ts method path_url body) ∧
    ((sign_request c ts method path_url body).lookup "FTX-KEY" = some c.api_key) ∧
    ((sign_request c ts method path_url body).lookup "FTX-SIGN" =
      some (signatureOf c.api_secret ts method path_url body)) ∧
    ((sign_request c ts method path_url body).lookup "FTX-TS" =
      some (natDecimal ts)) := by
  refine ⟨?_, rfl, ?_, ?_, ?_⟩ <;>
    by_cases h : truthyStr c.subaccount_name = true <;>
      simp [sign_request, List.lookup, h]

/-! ## C5: the loop follows the spec's steps -/

theorem foldr_min_swap (l : List Int) (a b : Int) :
    l.foldr (fun x m => min x m) (min a b) =
      min b (l.foldr (fun x m => min x m) a) := by
  induction l with
  | nil => exact min_comm a b
  | cons c l ih => simp only [List.foldr_cons, ih]; rw [min_left_comm]

theorem foldl_min_eq (ts : List Trade) (a : Int) :
    ts.foldl (fun m r => min m r.time) a =
      (ts.map Trade.time).foldr (fun x m => min x m) a := by
  induction ts generalizing a with
  | nil => rfl
  | cons r ts ih =>
      simp only [List.foldl_cons, List.map_cons, List.foldr_cons]
      rw [ih (min a r.time)]
      exact foldr_min_swap _ a r.time

theorem minTime_cons (t : Trade) (ts : List Trade) :
    minTime (t :: ts) = (ts.map Trade.time).foldr (fun x m => min x m) t.time := by
  simp [minTime, foldl_min_eq]

theorem spec_loop_eq (fetch : Option Int → List Trade) (fuel : Nat) :
    ∀ (et : Option Int) (seen : List Nat) (acc : List Trade),
      getAllTradesSpec fetch fuel et seen acc =
        (getAllTradesLoop fetch fuel et seen acc).map Prod.fst := by
  induction fuel with
  | zero => intro et seen acc; rfl
  | succ fuel ih =>
      intro et seen acc
      cases hresp : fetch et with
      | nil => simp [getAllTradesSpec, getAllTradesLoop, hresp]
      | cons t ts =>
          simp only [getAllTradesSpec, getAllTradesLoop, hresp, List.length_cons,
            ← minTime_cons]
          by_cases hlt : ts.length + 1 < pageLimit
          · simp [hlt]
          · rw [if_neg hlt, if_neg hlt, ih]
            cases getAllTradesLoop fetch fuel (some (minTime (t :: ts)))
                (seen ++ (List.filter (fun r => !seen.contains r.id) (t :: ts)).map Trade.id)
                (acc ++ List.filter (fun r => !seen.contains r.id) (t :: ts)) with
            | none => rfl
            | some p => rfl

/-- C5: on every iteration the source loop does exactly what the spec
prescribes — the independently spec-modelled loop `getAllTradesSpec` computes
the same result as the embedded source loop on all inputs — and a first page
of zero records makes the loop return the empty list immediately (after one
page). -/
theorem get_all_trades_follows_spec :
    (∀ (fetch : Option Int → List Trade) (fuel : Nat) (et : Option Int)
        (seen : List Nat) (acc : List Trade),
      getAllTradesSpec fetch fuel et seen acc =
        (getAllTradesLoop fetch fuel et seen acc).map Prod.fst) ∧
    (∀ (fetch : Option Int → List Trade) (et : Option Int) (fuel : Nat),
      fetch et = [] → getAllTradesLoop fetch (fuel + 1) et [] [] = some ([], 1)) := by
  constructor
  · exact fun fetch fuel => spec_loop_eq fetch fuel
  · intro fetch et fuel h
    simp [getAllTradesLoop, h]

/-! ## C3: deduplication invariant and stopping -/

theorem loop_preserves_nodup (fetch : Option Int → List Trade)
    (hpages : ∀ et, ((fetch et).map Trade.id).Nodup) (fuel : Nat) :
    ∀ (et : Option Int) (ids : List Nat) (acc : List Trade),
      (acc.map Trade.id).Nodup → (∀ i ∈ acc.map Trade.id, i ∈ ids) →
      ∀ res n, getAllTradesLoop fetch fuel et ids acc = some (res, n) →
        (res.map Trade.id).Nodup := by
  induction fuel with
  | zero =>
      intro et ids acc _ _ res n h
      exact absurd h (by simp [getAllTradesLoop])
  | succ fuel ih =>
      intro et ids acc hacc hsub res n h
      simp only [getAllTradesLoop] at h
      have hd1 : (((fetch et).filter (fun r => !ids.contains r.id)).map Trade.id).Nodup :=
        List.Nodup.sublist (List.Sublist.map _ (List.filter_sublist _)) (hpages et)
      have hdnotin : ∀ i ∈ ((fetch et).filter (fun r => !ids.contains r.id)).map Trade.id,
          i ∉ ids := by
        intro i hi
        obtain ⟨r, hr, rfl⟩ := List.mem_map.mp hi
        have hmem := (List.mem_filter.mp hr).2
        simpa using hmem
      have hacc' : ((acc ++ (fetch et).filter (fun r => !ids.contains r.id)).map
          Trade.id).Nodup := by
        rw [List.map_append, List.nodup_append]
        exact ⟨hacc, hd1, fun a ha1 ha2 => hdnotin a ha2 (hsub a ha1)⟩
      have hsub' : ∀ i ∈ (acc ++ (fetch et).filter (fun r => !ids.contains r.id)).map
          Trade.id, i ∈ ids ++ ((fetch et).filter (fun r => !ids.contains r.id)).map
          Trade.id := by
        intro i hi
        rw [List.map_append, List.mem_append] at hi
        rcases hi with hi | hi
        · exact List.mem_append_left _ (hsub i hi)
        · exact List.mem_append_right _ hi
      split at h
      · obtain ⟨rfl, rfl⟩ : acc ++ (fetch et).filter (fun r => !ids.contains r.id) = res
            ∧ 1 = n := by simpa using h
        exact hacc'
      · split at h
        · obtain ⟨rfl, rfl⟩ : acc ++ (fetch et).filter (fun r => !ids.contains r.id) = res
              ∧ 1 = n := by simpa using h
          exact hacc'
        · cases hrec : getAllTradesLoop fetch fuel (some (minTime (fetch et)))
              (ids ++ ((fetch et).filter (fun r => !ids.contains r.id)).map Trade.id)
              (acc ++ (fetch et).filter (fun r => !ids.contains r.id)) with
          | none => rw [hrec] at h; exact absurd h (by simp)
          | some p =>
              rw [hrec] at h
              obtain ⟨rfl, rfl⟩ : p.1 = res ∧ p.2 + 1 = n := by
                cases p; simpa using h
              exact ih (some (minTime (fetch et)))
                (ids ++ ((fetch et).filter (fun r => !ids.contains r.id)).map Trade.id)
                (acc ++ (fetch et).filter (fun r => !ids.contains r.id))
                hacc' hsub' p.1 p.2 hrec


/-- C3: whenever the endpoint's pages carry unique ids (the data model's
invariant for trade records), the list `get_all_trades` returns contains no
two records with equal id, and the loop stops right after the first page of
fewer than 100 records (returning within that iteration). -/
theorem get_all_trades_dedup (fetch : Option Int → List Trade)
    (hpages : ∀ et, ((fetch et).map Trade.id).Nodup) :
    (∀ fuel et res n, get_all_trades fetch et fuel = some (res, n) →
      (res.map Trade.id).Nodup) ∧
    (∀ fuel et ids acc, (fetch et).length < pageLimit →
      getAllTradesLoop fetch (fuel + 1) et ids acc =
        some (acc ++ (fetch et).filter (fun r => !ids.contains r.id), 1)) := by
  constructor
  · intro fuel et res n h
    exact loop_preserves_nodup fetch hpages fuel et [] [] (by simp) (by simp) res n h
  · intro fuel et ids acc hlt
    by_cases h0 : (fetch et).length = 0 <;>
      simp [getAllTradesLoop, h0, hlt]

set_option maxRecDepth 40000 in
/-- Witness for C3: on the `[100, 100, 40]` page scenario with overlapping
boundary ids the loop stops after the third page and returns 238 records with
pairwise distinct ids. -/
theorem get_all_trades_dedup_witness :
    (∀ et, ((fetch3 et).map Trade.id).Nodup) ∧
    (getAllTradesLoop fetch3 3 none [] []).elim False
      (fun p => (p.1.map Trade.id).Nodup ∧ p.2 = 3 ∧ p.1.length = 238) := by
  have hpages : ∀ et, ((fetch3 et).map Trade.id).Nodup := by
    intro et
    simp only [fetch3]
    split
    · decide
    · split
      · decide
      · split
        · decide
        · decide
  refine ⟨hpages, ?_⟩
  have hnd := (get_all_trades_dedup fetch3 hpages).1
  have hm : (getAllTradesLoop fetch3 3 none [] []).map
      (fun q => (q.2, q.1.length)) = some (3, 238) := by decide
  cases heq : getAllTradesLoop fetch3 3 none [] [] with
  | none => rw [heq] at hm; exact absurd hm (by simp)
  | some p =>
      rw [heq] at hm
      obtain ⟨h1, h2⟩ : p.2 = 3 ∧ p.1.length = 238 := by simpa using hm
      exact ⟨hnd 3 none p.1 p.2 (by rw [get_all_trades, heq]), h1, h2⟩


/-! ## C4: termination of the pagination loop -/

/-- One-step unfolding of the loop (controlled, so that the recursive call is
not unfolded further). -/
theorem getAllTradesLoop_succ (fetch : Option Int → List Trade) (fuel : Nat)
    (et : Option Int) (ids : List Nat) (acc : List Trade) :
    getAllTradesLoop fetch (fuel + 1) et ids acc =
      if (fetch et).length = 0 then
        some (acc ++ (fetch et).filter (fun r => !ids.contains r.id), 1)
      else if (fetch et).length < pageLimit then
        some (acc ++ (fetch et).filter (fun r => !ids.contains r.id), 1)
      else
        match getAllTradesLoop fetch fuel (some (minTime (fetch et)))
            (ids ++ ((fetch et).filter (fun r => !ids.contains r.id)).map Trade.id)
            (acc ++ (fetch et).filter (fun r => !ids.contains r.id)) with
        | none => none
        | some (res, n) => some (res, n + 1) := rfl

theorem foldl_min_cases (ts : List Trade) (a : Int) :
    ts.foldl (fun m r => min m r.time) a = a ∨
      ∃ r ∈ ts, ts.foldl (fun m r => min m r.time) a = r.time := by
  induction ts generalizing a with
  | nil => left; rfl
  | cons x ts ih =>
      rcases ih (min a x.time) with h | ⟨r, hr, heq⟩
      · rcases min_choice a x.time with hm | hm
        · left; simp only [List.foldl_cons]; rw [h, hm]
        · right; exact ⟨x, by simp, by simp only [List.foldl_cons]; rw [h, hm]⟩
      · right; exact ⟨r, by simp [hr], by simp only [List.foldl_cons]; rw [heq]⟩

theorem minTime_mem (t : Trade) (ts : List Trade) :
    ∃ r ∈ t :: ts, minTime (t :: ts) = r.time := by
  rcases foldl_min_cases ts t.time with h | ⟨r, hr, heq⟩
  · exact ⟨t, by simp, by simp [minTime, h]⟩
  · exact ⟨r, by simp [hr], by simp [minTime, heq]⟩

theorem length_filter_lt {α : Type} (l : List α) (p q : α → Bool)
    (hmono : ∀ x ∈ l, p x = true → q x = true) (r : α) (hr : r ∈ l)
    (hq : q r = true) (hp : p r = false) :
    (l.filter p).length < (l.filter q).length := by
  induction l with
  | nil => cases hr
  | cons x xs ih =>
      have hmono' : ∀ y ∈ xs, p y = true → q y = true :=
        fun y hy => hmono y (List.mem_cons_of_mem _ hy)
      have hmle : (xs.filter p).length ≤ (xs.filter q).length := by
        rw [← List.countP_eq_length_filter, ← List.countP_eq_length_filter]
        exact List.countP_mono_left hmono'
      rcases List.mem_cons.mp hr with rfl | hr'
      · simp only [List.filter_cons, hp, hq, if_true, if_false, List.length_cons,
          Bool.false_eq_true, ite_false, ite_true]
        omega
      · have hlt := ih hmono' hr'
        cases hpx : p x
        · cases hqx : q x <;>
            simp only [List.filter_cons, hpx, hqx, if_true, if_false, List.length_cons,
              Bool.false_eq_true, ite_false, ite_true] <;> omega
        · have hqx : q x = true := hmono x (List.mem_cons_self x xs) hpx
          simp only [List.filter_cons, hpx, hqx, if_true, ite_true, List.length_cons]
          omega

theorem remaining_lt (db : List Trade) (et : Option Int) (r : Trade)
    (hmem : r ∈ serve db et) (hr : minTime (serve db et) < r.time) :
    remaining db (some (minTime (serve db et))) < remaining db et := by
  have hsub : ∀ x ∈ serve db et, x ∈ db.filter (inWindow et) :=
    fun x hx => (List.take_sublist _ _).subset hx
  cases hs : serve db et with
  | nil => rw [hs] at hmem; cases hmem
  | cons t ts =>
      rw [hs] at hmem hr hsub
      obtain ⟨rm, hrm, hrmeq⟩ := minTime_mem t ts
      have hrdb := List.mem_filter.mp (hsub r hmem)
      refine length_filter_lt db _ _ ?_ r hrdb.1 hrdb.2 ?_
      · intro x _ hpx
        have hxle : x.time ≤ minTime (t :: ts) := by
          simpa [inWindow] using hpx
        cases et with
        | none => rfl
        | some e =>
            have hrme := List.mem_filter.mp (hsub rm hrm)
            have : rm.time ≤ e := by simpa [inWindow] using hrme.2
            simp only [inWindow, decide_eq_true_eq]
            omega
      · simp only [inWindow, decide_eq_false_iff_not, not_le]
        exact hr

theorem serve_term_aux (db : List Trade)
    (h : ∀ et, (serve db et).length = pageLimit →
      ∃ r ∈ serve db et, minTime (serve db et) < r.time) :
    ∀ (k : Nat) (et : Option Int) (ids : List Nat) (acc : List Trade),
      remaining db et ≤ k →
      ∃ res n, getAllTradesLoop (serve db) (k + 1) et ids acc = some (res, n) := by
  intro k
  induction k with
  | zero =>
      intro et ids acc hrem
      have h0 : db.filter (inWindow et) = [] :=
        List.length_eq_zero.mp (Nat.le_zero.mp hrem)
      have hs : serve db et = [] := by simp [serve, h0]
      exact ⟨acc, 1, by simp [getAllTradesLoop, hs]⟩
  | succ k ih =>
      intro et ids acc hrem
      by_cases h0 : (serve db et).length = 0
      · refine ⟨acc ++ (serve db et).filter (fun r => !ids.contains r.id), 1, ?_⟩
        rw [getAllTradesLoop_succ, if_pos h0]
      · by_cases hlt : (serve db et).length < pageLimit
        · refine ⟨acc ++ (serve db et).filter (fun r => !ids.contains r.id), 1, ?_⟩
          rw [getAllTradesLoop_succ, if_neg h0, if_pos hlt]
        · have hle : (serve db et).length ≤ pageLimit := by
            rw [serve, List.length_take]; exact min_le_left _ _
          have hfull : (serve db et).length = pageLimit :=
            le_antisymm hle (not_lt.mp hlt)
          obtain ⟨r, hmem, hrt⟩ := h et hfull
          have hdec := remaining_lt db et r hmem hrt
          obtain ⟨res, n, hrec⟩ := ih (some (minTime (serve db et)))
            (ids ++ ((serve db et).filter (fun r => !ids.contains r.id)).map Trade.id)
            (acc ++ (serve db et).filter (fun r => !ids.contains r.id))
            (by omega)
          refine ⟨res, n + 1, ?_⟩
          rw [getAllTradesLoop_succ, if_neg h0, if_neg hlt, hrec]

/-- C4 (amended): for an endpoint serving pages of a finite dataset filtered
by the `end_time` cursor, the loop terminates provided every full page
(exactly 100 records) contains a record strictly newer than the page's oldest
time — then each full-page iteration strictly shrinks the remaining data, and
any other page stops the loop at once.  (The unamended claim is refuted by
`get_all_trades_nontermination_counterexample`.) -/
theorem get_all_trades_terminates (db : List Trade) (et₀ : Option Int)
    (h : ∀ et, (serve db et).length = pageLimit →
      ∃ r ∈ serve db et, minTime (serve db et) < r.time) :
    ∃ fuel res n, getAllTradesLoop (serve db) fuel et₀ [] [] = some (res, n) := by
  obtain ⟨res, n, hr⟩ := serve_term_aux db h (remaining db et₀) et₀ [] [] le_rfl
  exact ⟨remaining db et₀ + 1, res, n, hr⟩

/-- Witness for C4 (amended): on the three-record dataset `db3` every page is
short, so the hypothesis holds vacuously and the loop terminates. -/
theorem get_all_trades_terminates_witness :
    ∃ fuel res n, getAllTradesLoop (serve db3) fuel none [] [] = some (res, n) := by
  apply get_all_trades_terminates db3 none
  intro et hfull
  exfalso
  have h3 : (serve db3 et).length ≤ 3 := by
    have h1 : (db3.filter (inWindow et)).length ≤ db3.length :=
      List.length_filter_le _ _
    have h2 : (serve db3 et).length ≤ (db3.filter (inWindow et)).length := by
      rw [serve, List.length_take]; exact min_le_right _ _
    have h4 : db3.length = 3 := rfl
    omega
  rw [hfull] at h3
  norm_num [pageLimit] at h3

set_option maxRecDepth 40000 in
theorem dbBad_stuck : ∀ (fuel : Nat) (ids : List Nat) (acc : List Trade),
    (∀ t ∈ dbBad, t.id ∈ ids) →
    getAllTradesLoop (serve dbBad) fuel (some 5) ids acc = none := by
  intro fuel
  induction fuel with
  | zero => intro ids acc _; rfl
  | succ fuel ih =>
      intro ids acc hids
      have hserve : serve dbBad (some 5) = dbBad := by decide
      have hfilter : dbBad.filter (fun r => !ids.contains r.id) = [] := by
        rw [List.filter_eq_nil_iff]
        intro a ha
        simp [hids a ha]
      have hmt : minTime dbBad = 5 := by decide
      rw [getAllTradesLoop_succ]
      simp only [hserve, hfilter, List.map_nil, List.append_nil]
      rw [if_neg (by decide), if_neg (by decide), hmt, ih ids acc hids]

set_option maxRecDepth 40000 in
theorem dbBad_loop_none : ∀ fuel : Nat,
    getAllTradesLoop (serve dbBad) fuel none [] [] = none := by
  intro fuel
  cases fuel with
  | zero => rfl
  | succ fuel =>
      have hserve : serve dbBad none = dbBad := by decide
      have hfilter : dbBad.filter (fun r => !([] : List Nat).contains r.id) = dbBad := by
        decide
      have hmt : minTime dbBad = 5 := by decide
      rw [getAllTradesLoop_succ]
      simp only [hserve, hfilter, List.nil_append]
      rw [if_neg (by decide), if_neg (by decide), hmt,
        dbBad_stuck fuel (dbBad.map Trade.id) dbBad (by decide)]

/-- C4 counterexample: an endpoint whose dataset holds 100 trades sharing one
timestamp keeps serving the same full page (the `end_time` cursor never
advances past the shared time), and the loop never terminates for any amount
of fuel — refuting "for every sequence of pages the endpoint can return, the
loop terminates". -/
theorem get_all_trades_nontermination_counterexample :
    ¬ ∃ fuel res n, getAllTradesLoop (serve dbBad) fuel none [] [] = some (res, n) := by
  rintro ⟨fuel, res, n, h⟩
  rw [dbBad_loop_none fuel] at h
  exact Option.noConfusion h


/-! ## C1: the request signature -/

theorem digitChar_toNat (n : Nat) (h : n < 10) : (digitChar n).toNat = 48 + n := by
  interval_cases n <;> rfl

theorem parseDecimal_append_digit (cs : List Char) (c : Char) :
    parseDecimal (cs ++ [c]) = parseDecimal cs * 10 + (c.toNat - 48) := by
  simp [parseDecimal, List.foldl_append]

theorem parse_natDecimalAux (fuel : Nat) :
    ∀ n, n < fuel → parseDecimal (natDecimalAux fuel n) = n := by
  induction fuel with
  | zero => intro n h; omega
  | succ fuel ih =>
      intro n h
      by_cases h10 : n < 10
      · simp only [natDecimalAux, if_pos h10, parseDecimal, List.foldl_cons,
          List.foldl_nil, digitChar_toNat n h10]
        omega
      · have hrec : n / 10 < fuel := by omega
        simp only [natDecimalAux, if_neg h10]
        rw [parseDecimal_append_digit, ih _ hrec, digitChar_toNat (n % 10) (by omega)]
        omega

theorem natDecimal_inj (m n : Nat) (h : natDecimal m = natDecimal n) : m = n := by
  have hm := parse_natDecimalAux (m + 1) m (by omega)
  have hn := parse_natDecimalAux (n + 1) n (by omega)
  have hdata : natDecimalAux (m + 1) m = natDecimalAux (n + 1) n := by
    have := congrArg String.data h
    simpa [natDecimal] using this
  rw [← hm, ← hn, hdata]

theorem char_toNat_lt (c : Char) : c.toNat < 1114112 := by
  rcases c.valid with h | ⟨_, h⟩ <;> exact Nat.lt_of_lt_of_le h (by omega)

theorem char_toNat_inj {a b : Char} (h : a.toNat = b.toNat) : a = b :=
  Char.ext (UInt32.ext h)

theorem utf8Enc_one (n : Nat) (h : n < 128) : utf8Enc n = [n] := by
  simp [utf8Enc, h]

theorem utf8Enc_two (n : Nat) (h1 : ¬n < 128) (h2 : n < 2048) :
    utf8Enc n = [192 + n / 64, 128 + n % 64] := by
  simp [utf8Enc, h1, h2]

theorem utf8Enc_three (n : Nat) (h1 : ¬n < 128) (h2 : ¬n < 2048) (h3 : n < 65536) :
    utf8Enc n = [224 + n / 4096, 128 + n / 64 % 64, 128 + n % 64] := by
  simp [utf8Enc, h1, h2, h3]

theorem utf8Enc_four (n : Nat) (h1 : ¬n < 128) (h2 : ¬n < 2048) (h3 : ¬n < 65536) :
    utf8Enc n = [240 + n / 262144, 128 + n / 4096 % 64, 128 + n / 64 % 64, 128 + n % 64] := by
  simp [utf8Enc, h1, h2, h3]

theorem utf8Enc_ne_nil (n : Nat) : utf8Enc n ≠ [] := by
  by_cases h1 : n < 128
  · rw [utf8Enc_one n h1]; simp
  · by_cases h2 : n < 2048
    · rw [utf8Enc_two n h1 h2]; simp
    · by_cases h3 : n < 65536
      · rw [utf8Enc_three n h1 h2 h3]; simp
      · rw [utf8Enc_four n h1 h2 h3]; simp

theorem utf8Enc_prefix_inj (m n : Nat) (r s : List Nat)
    (h : utf8Enc m ++ r = utf8Enc n ++ s) : m = n ∧ r = s := by
  by_cases hm1 : m < 128
  · by_cases hn1 : n < 128
    · rw [utf8Enc_one m hm1, utf8Enc_one n hn1] at h
      simp only [List.cons_append, List.nil_append, List.cons.injEq] at h
      exact ⟨h.1, h.2⟩
    · by_cases hn2 : n < 2048
      · rw [utf8Enc_one m hm1, utf8Enc_two n hn1 hn2] at h
        simp only [List.cons_append, List.nil_append, List.cons.injEq] at h
        exact absurd h.1 (by omega)
      · by_cases hn3 : n < 65536
        · rw [utf8Enc_one m hm1, utf8Enc_three n hn1 hn2 hn3] at h
          simp only [List.cons_append, List.nil_append, List.cons.injEq] at h
          exact absurd h.1 (by omega)
        · rw [utf8Enc_one m hm1, utf8Enc_four n hn1 hn2 hn3] at h
          simp only [List.cons_append, List.nil_append, List.cons.injEq] at h
          exact absurd h.1 (by omega)
  · by_cases hm2 : m < 2048
    · by_cases hn1 : n < 128
      · rw [utf8Enc_two m hm1 hm2, utf8Enc_one n hn1] at h
        simp only [List.cons_append, List.nil_append, List.cons.injEq] at h
        exact absurd h.1 (by omega)
      · by_cases hn2 : n < 2048
        · rw [utf8Enc_two m hm1 hm2, utf8Enc_two n hn1 hn2] at h
          simp only [List.cons_append, List.nil_append, List.cons.injEq] at h
          exact ⟨by omega, h.2.2⟩
        · by_cases hn3 : n < 65536
          · rw [utf8Enc_two m hm1 hm2, utf8Enc_three n hn1 hn2 hn3] at h
            simp only [List.cons_append, List.nil_append, List.cons.injEq] at h
            exact absurd h.1 (by omega)
          · rw [utf8Enc_two m hm1 hm2, utf8Enc_four n hn1 hn2 hn3] at h
            simp only [List.cons_append, List.nil_append, List.cons.injEq] at h
            exact absurd h.1 (by omega)
    · by_cases hm3 : m < 65536
      · by_cases hn1 : n < 128
        · rw [utf8Enc_three m hm1 hm2 hm3, utf8Enc_one n hn1] at h
          simp only [List.cons_append, List.nil_append, List.cons.injEq] at h
          exact absurd h.1 (by omega)
        · by_cases hn2 : n < 2048
          · rw [utf8Enc_three m hm1 hm2 hm3, utf8Enc_two n hn1 hn2] at h
            simp only [List.cons_append, List.nil_append, List.cons.injEq] at h
            exact absurd h.1 (by omega)
          · by_cases hn3 : n < 65536
            · rw [utf8Enc_three m hm1 hm2 hm3, utf8Enc_three n hn1 hn2 hn3] at h
              simp only [List.cons_append, List.nil_append, List.cons.injEq] at h
              exact ⟨by omega, h.2.2.2⟩
            · rw [utf8Enc_three m hm1 hm2 hm3, utf8Enc_four n hn1 hn2 hn3] at h
              simp only [List.cons_append, List.nil_append, List.cons.injEq] at h
              exact absurd h.1 (by omega)
      · by_cases hn1 : n < 128
        · rw [utf8Enc_four m hm1 hm2 hm3, utf8Enc_one n hn1] at h
          simp only [List.cons_append, List.nil_append, List.cons.injEq] at h
          exact absurd h.1 (by omega)
        · by_cases hn2 : n < 2048
          · rw [utf8Enc_four m hm1 hm2 hm3, utf8Enc_two n hn1 hn2] at h
            simp only [List.cons_append, List.nil_append, List.cons.injEq] at h
            exact absurd h.1 (by omega)
          · by_cases hn3 : n < 65536
            · rw [utf8Enc_four m hm1 hm2 hm3, utf8Enc_three n hn1 hn2 hn3] at h
              simp only [List.cons_append, List.nil_append, List.cons.injEq] at h
              exact absurd h.1 (by omega)
            · rw [utf8Enc_four m hm1 hm2 hm3, utf8Enc_four n hn1 hn2 hn3] at h
              simp only [List.cons_append, List.nil_append, List.cons.injEq] at h
              exact ⟨by omega, h.2.2.2.2⟩

theorem utf8_flatten_inj : ∀ (l1 l2 : List Char),
    (l1.map utf8Bytes).flatten = (l2.map utf8Bytes).flatten → l1 = l2 := by
  intro l1
  induction l1 with
  | nil =>
      intro l2 h
      cases l2 with
      | nil => rfl
      | cons d l2 =>
          simp only [List.map_nil, List.flatten_nil, List.map_cons,
            List.flatten_cons] at h
          exact absurd (List.append_eq_nil.mp h.symm).1 (utf8Enc_ne_nil d.toNat)
  | cons c l1 ih =>
      intro l2 h
      cases l2 with
      | nil =>
          simp only [List.map_nil, List.flatten_nil, List.map_cons,
            List.flatten_cons] at h
          exact absurd (List.append_eq_nil.mp h).1 (utf8Enc_ne_nil c.toNat)
      | cons d l2 =>
          simp only [List.map_cons, List.flatten_cons] at h
          obtain ⟨hcd, hrest⟩ := utf8Enc_prefix_inj c.toNat d.toNat _ _ h
          rw [char_toNat_inj hcd, ih l2 hrest]

theorem strBytes_inj (s t : String) (h : strBytes s = strBytes t) : s = t := by
  cases s with
  | mk ls =>
      cases t with
      | mk lt =>
          simp only [strBytes] at h
          rw [utf8_flatten_inj ls lt h]

theorem strBytes_append (s t : String) :
    strBytes (s ++ t) = strBytes s ++ strBytes t := by
  simp [strBytes, String.data_append]


theorem signaturePayload_eq (ts : Nat) (m p : String) (b : List Nat) :
    signaturePayload ts m p b =
      strBytes (natDecimal ts) ++ strBytes m ++ strBytes p ++ b := by
  rw [signaturePayload, strBytes_append, strBytes_append]
  cases b with
  | nil => simp
  | cons x xs => simp

theorem payload_inj_ts (ts ts' : Nat) (m p : String) (b : List Nat)
    (h : signaturePayload ts m p b = signaturePayload ts' m p b) : ts = ts' := by
  rw [signaturePayload_eq, signaturePayload_eq] at h
  have h1 := List.append_cancel_right h
  have h2 := List.append_cancel_right h1
  have h3 := List.append_cancel_right h2
  exact natDecimal_inj ts ts' (strBytes_inj _ _ h3)

theorem payload_inj_method (ts : Nat) (m m' p : String) (b : List Nat)
    (h : signaturePayload ts m p b = signaturePayload ts m' p b) : m = m' := by
  rw [signaturePayload_eq, signaturePayload_eq] at h
  have h1 := List.append_cancel_right h
  have h2 := List.append_cancel_right h1
  have h3 := List.append_cancel_left h2
  exact strBytes_inj _ _ h3

theorem payload_inj_path (ts : Nat) (m p p' : String) (b : List Nat)
    (h : signaturePayload ts m p b = signaturePayload ts m p' b) : p = p' := by
  rw [signaturePayload_eq, signaturePayload_eq] at h
  have h1 := List.append_cancel_right h
  have h2 := List.append_cancel_left h1
  exact strBytes_inj _ _ h2

theorem payload_inj_body (ts : Nat) (m p : String) (b b' : List Nat)
    (h : signaturePayload ts m p b = signaturePayload ts m p b') : b = b' := by
  rw [signaturePayload_eq, signaturePayload_eq] at h
  exact List.append_cancel_left h

/-- C1 (amended): the `FTX-SIGN` header is exactly the hex-encoded HMAC-SHA256,
keyed by the API secret, of the byte concatenation of the decimal timestamp,
the method, the path-with-query and the raw body (whose omission when empty
changes nothing, as an empty body contributes no bytes); and changing any one
of the four inputs changes the signature payload (the byte string being
MACed).  The signature itself cannot be injective — see
`sign_request_collision_counterexample`. -/
theorem sign_request_signature :
    (∀ (c : Client) (ts : Nat) (method path_url : String) (body : List Nat),
      (sign_request c ts method path_url body).lookup "FTX-SIGN" =
        some (hexOfBytes (hmacSha256 (strBytes c.api_secret)
          (strBytes (natDecimal ts) ++ strBytes method ++ strBytes path_url ++ body)))) ∧
    (∀ (ts ts' : Nat) (m p : String) (b : List Nat),
      signaturePayload ts m p b = signaturePayload ts' m p b → ts = ts') ∧
    (∀ (ts : Nat) (m m' p : String) (b : List Nat),
      signaturePayload ts m p b = signaturePayload ts m' p b → m = m') ∧
    (∀ (ts : Nat) (m p p' : String) (b : List Nat),
      signaturePayload ts m p b = signaturePayload ts m p' b → p = p') ∧
    (∀ (ts : Nat) (m p : String) (b b' : List Nat),
      signaturePayload ts m p b = signaturePayload ts m p b' → b = b') := by
  refine ⟨?_, payload_inj_ts, payload_inj_method, payload_inj_path, payload_inj_body⟩
  intro c ts method path_url body
  simp [sign_request, List.lookup, signatureOf, signaturePayload_eq]

theorem wordBytes_mem_lt (w : Nat) : ∀ b ∈ wordBytes w, b < 256 := by
  intro b hb
  simp only [wordBytes, List.mem_cons, List.not_mem_nil, or_false] at hb
  rcases hb with rfl | rfl | rfl | rfl <;> exact Nat.mod_lt _ (by omega)

theorem digestBytes_length (H : ShaState) : (digestBytes H).length = 32 := by
  simp [digestBytes, wordBytes]

theorem digestBytes_mem_lt (H : ShaState) : ∀ b ∈ digestBytes H, b < 256 := by
  intro b hb
  simp only [digestBytes, List.mem_append] at hb
  rcases hb with ((((((hb | hb) | hb) | hb) | hb) | hb) | hb) | hb <;>
    exact wordBytes_mem_lt _ b hb

theorem sha256_length (msg : List Nat) : (sha256 msg).length = 32 :=
  digestBytes_length _

theorem sha256_mem_lt (msg : List Nat) : ∀ b ∈ sha256 msg, b < 256 :=
  digestBytes_mem_lt _

theorem hmacSha256_length (key msg : List Nat) : (hmacSha256 key msg).length = 32 := by
  simp only [hmacSha256]
  exact sha256_length _

theorem hmacSha256_mem_lt (key msg : List Nat) : ∀ b ∈ hmacSha256 key msg, b < 256 := by
  simp only [hmacSha256]
  exact sha256_mem_lt _

theorem bytesToNat_lt : ∀ (bs : List Nat), (∀ b ∈ bs, b < 256) →
    bytesToNat bs < 256 ^ bs.length := by
  intro bs
  induction bs with
  | nil => intro _; simp [bytesToNat]
  | cons b t ih =>
      intro h
      have hv : bytesToNat t < 256 ^ t.length :=
        ih (fun x hx => h x (List.mem_cons_of_mem _ hx))
      have hb : b < 256 := h b (List.mem_cons_self _ _)
      have hE : (0:Nat) < 256 ^ t.length := Nat.pos_pow_of_pos _ (by omega)
      calc b * 256 ^ t.length + bytesToNat t
          < b * 256 ^ t.length + 256 ^ t.length := Nat.add_lt_add_left hv _
        _ = (b + 1) * 256 ^ t.length := by ring
        _ ≤ 256 * 256 ^ t.length := Nat.mul_le_mul_right _ (by omega)
        _ = 256 ^ (b :: t).length := by rw [List.length_cons, pow_succ, Nat.mul_comm]

theorem bytesToNat_inj : ∀ (bs cs : List Nat), bs.length = cs.length →
    (∀ b ∈ bs, b < 256) → (∀ b ∈ cs, b < 256) →
    bytesToNat bs = bytesToNat cs → bs = cs := by
  intro bs
  induction bs with
  | nil =>
      intro cs hlen _ _ _
      cases cs with
      | nil => rfl
      | cons c u => simp at hlen
  | cons b t ih =>
      intro cs hlen hb hc heq
      cases cs with
      | nil => simp at hlen
      | cons c u =>
          have hlen' : t.length = u.length := by simpa using hlen
          have hvt : bytesToNat t < 256 ^ u.length := by
            rw [← hlen']
            exact bytesToNat_lt t (fun x hx => hb x (List.mem_cons_of_mem _ hx))
          have hvu : bytesToNat u < 256 ^ u.length :=
            bytesToNat_lt u (fun x hx => hc x (List.mem_cons_of_mem _ hx))
          rw [bytesToNat, bytesToNat, hlen'] at heq
          have hE : (0:Nat) < 256 ^ u.length := Nat.pos_pow_of_pos _ (by omega)
          have hbc : b = c := by
            have h1 : (256 ^ u.length * b + bytesToNat t) / 256 ^ u.length = b := by
              rw [Nat.mul_add_div hE, Nat.div_eq_of_lt hvt, Nat.add_zero]
            have h2 : (256 ^ u.length * c + bytesToNat u) / 256 ^ u.length = c := by
              rw [Nat.mul_add_div hE, Nat.div_eq_of_lt hvu, Nat.add_zero]
            rw [Nat.mul_comm (256 ^ u.length) b] at h1
            rw [Nat.mul_comm (256 ^ u.length) c] at h2
            rw [← h1, ← h2, heq]
          subst hbc
          have hrest : bytesToNat t = bytesToNat u := by omega
          rw [ih u hlen' (fun x hx => hb x (List.mem_cons_of_mem _ hx))
            (fun x hx => hc x (List.mem_cons_of_mem _ hx)) hrest]

theorem sigDigestNat_def (ts : Nat) :
    sigDigestNat ts = bytesToNat (hmacSha256 (strBytes "secret")
      (signaturePayload ts "GET" "/api/markets" [])) := rfl

theorem signatureOf_fixed (ts : Nat) :
    signatureOf "secret" ts "GET" "/api/markets" [] =
      hexOfBytes (hmacSha256 (strBytes "secret")
        (signaturePayload ts "GET" "/api/markets" [])) := rfl

theorem nat_pigeonhole_pow (g : Nat → Nat) (hb : ∀ n, g n < 256 ^ 32) :
    ∃ a b : Nat, a ≠ b ∧ g a = g b := by
  obtain ⟨a, b, hne, heq⟩ := Finite.exists_ne_map_eq_of_infinite
    (fun n : Nat => (⟨g n, hb n⟩ : Fin (256 ^ 32)))
  exact ⟨a, b, hne, congrArg Fin.val heq⟩

/-- C1 counterexample: the signature cannot change for every change of a
single input — the timestamps map into the finitely many 256-bit digests, so
two distinct timestamps (all other inputs held fixed) produce the very same
signature.  This refutes the literal "changing any one of these inputs
changes the signature". -/
theorem sign_request_collision_counterexample :
    ¬ (∀ ts ts' : Nat, ts ≠ ts' →
        signatureOf "secret" ts "GET" "/api/markets" [] ≠
          signatureOf "secret" ts' "GET" "/api/markets" []) := by
  intro hclaim
  have hbound : ∀ ts : Nat, sigDigestNat ts < 256 ^ 32 := by
    intro ts
    have h1 := bytesToNat_lt _ (hmacSha256_mem_lt (strBytes "secret")
      (signaturePayload ts "GET" "/api/markets" []))
    rw [hmacSha256_length] at h1
    rw [sigDigestNat_def]
    exact h1
  obtain ⟨a, b, hne, hval⟩ := nat_pigeonhole_pow sigDigestNat hbound
  apply hclaim a b hne
  have hdig : hmacSha256 (strBytes "secret") (signaturePayload a "GET" "/api/markets" []) =
      hmacSha256 (strBytes "secret") (signaturePayload b "GET" "/api/markets" []) := by
    refine bytesToNat_inj _ _ ?_ (hmacSha256_mem_lt _ _) (hmacSha256_mem_lt _ _) ?_
    · rw [hmacSha256_length, hmacSha256_length]
    · rw [sigDigestNat_def, sigDigestNat_def] at hval
      exact hval
  rw [signatureOf_fixed, signatureOf_fixed]
  exact congrArg hexOfBytes hdig


/-! ## Concrete witnesses exercising the claims on the spec's own examples -/

/-- Witness for C2: the envelope `{"success": false, "error": "Invalid
parameter"}` fails with message `"Invalid parameter"`, and an unparsable body
with an error status propagates that status. -/
theorem process_response_cases_witness :
    process_response ⟨RespBody.parsed false "Invalid parameter" Val.null, 200⟩ =
      Outcome.appError "Invalid parameter" ∧
    process_response ⟨RespBody.unparsable, 503⟩ = Outcome.httpError 503 := by
  constructor
  · exact ((process_response_cases
      ⟨RespBody.parsed false "Invalid parameter" Val.null, 200⟩).2.1
      "Invalid parameter" Val.null rfl).1
  · have h := (process_response_cases ⟨RespBody.unparsable, 503⟩).1 rfl
    simpa using h.1

/-- Witness for C5: a first page of zero records yields the empty list after
one page. -/
theorem get_all_trades_follows_spec_witness :
    getAllTradesLoop (fun _ => []) 1 none [] [] = some ([], 1) :=
  get_all_trades_follows_spec.2 (fun _ => []) none 0 rfl

/-- Witness for C6: both ids, neither id, and price-with-size all fail; one
id with only a price passes. -/
theorem modify_order_validation_witness :
    isErr (modify_order (some "A") (some "B") none none none) = true ∧
    isErr (modify_order none none none none none) = true ∧
    isErr (modify_order (some "A") none (some 10) (some 5) none) = true ∧
    isErr (modify_order (some "A") none (some 10) none none) = false := by
  refine ⟨?_, ?_, ?_, ?_⟩
  · exact (modify_order_validation (some "A") (some "B") none none none).1.mpr
      (by simp)
  · exact (modify_order_validation none none none none none).1.mpr (by simp)
  · exact (modify_order_validation (some "A") none (some 10) (some 5) none).1.mpr
      (by simp)
  · have h := (modify_order_validation (some "A") none (some 10) none none).1
    revert h
    decide

/-- Witness for C7: `stop` without a trigger price fails, `trailing_stop`
with both a trigger price and a trail value fails, `stop` with a trigger
price passes. -/
theorem place_conditional_order_validation_witness :
    isErr (place_conditional_order "BTC-PERP" "buy" 1 "stop" none false true
      none none) = true ∧
    isErr (place_conditional_order "BTC-PERP" "buy" 1 "trailing_stop" none false true
      (some 100) (some 5)) = true ∧
    isErr (place_conditional_order "BTC-PERP" "buy" 1 "stop" none false true
      (some 100) none) = false := by
  refine ⟨?_, ?_, ?_⟩
  · have h := (place_conditional_order_validation "BTC-PERP" "buy" 1 "stop"
      none false true none none).1
    revert h
    decide
  · have h := (place_conditional_order_validation "BTC-PERP" "buy" 1 "trailing_stop"
      none false true (some 100) (some 5)).1
    revert h
    decide
  · exact (place_conditional_order_validation "BTC-PERP" "buy" 1 "stop"
      none false true (some 100) none).1.mpr (by simp)

/-- Witness for C8: `get_position "BTC-PERP"` finds the matching position and
returns `none` when nothing matches. -/
theorem get_position_first_match_witness :
    get_position [⟨"ETH-PERP", []⟩, ⟨"BTC-PERP", []⟩] "BTC-PERP" =
      some ⟨"BTC-PERP", []⟩ ∧
    get_position [⟨"ETH-PERP", []⟩] "BTC-PERP" = none := by
  constructor
  · rfl
  · exact (get_position_first_match [⟨"ETH-PERP", []⟩] "BTC-PERP").2.mpr
      (by intro q hq; simp at hq; simp [hq])

/-- Witness for C10: a client with sub-account "main" attaches the header, a
client with the empty string attaches none and equals the none-configured
client header-for-header. -/
theorem sign_request_subaccount_witness :
    ((sign_request ⟨"k", "s", some "main"⟩ 7 "GET" "/api/account" []).lookup
      "FTX-SUBACCOUNT" = some (urlQuote "main")) ∧
    ((sign_request ⟨"k", "s", some ""⟩ 7 "GET" "/api/account" []).lookup
      "FTX-SUBACCOUNT" = none) ∧
    (sign_request ⟨"k", "s", some ""⟩ 7 "GET" "/api/account" [] =
      sign_request ⟨"k", "s", none⟩ 7 "GET" "/api/account" []) := by
  refine ⟨?_, ?_, ?_⟩
  · have h := (sign_request_subaccount ⟨"k", "s", some "main"⟩ 7 "GET"
      "/api/account" []).1
    simpa [truthyStr] using h
  · rfl
  · exact (sign_request_subaccount ⟨"k", "s", none⟩ 7 "GET" "/api/account" []).2.1

/-- Witness for C1: at concrete distinct inputs the signature payloads do
differ (by the proved injectivity in each argument). -/
theorem sign_request_signature_witness :
    signaturePayload 1 "GET" "/api/markets" [] ≠
      signaturePayload 2 "GET" "/api/markets" [] ∧
    signaturePayload 7 "GET" "/api/markets" [] ≠
      signaturePayload 7 "POST" "/api/markets" [] ∧
    signaturePayload 7 "GET" "/api/markets" [] ≠
      signaturePayload 7 "GET" "/api/orders" [] ∧
    signaturePayload 7 "GET" "/api/markets" [] ≠
      signaturePayload 7 "GET" "/api/markets" [55] := by
  refine ⟨?_, ?_, ?_, ?_⟩
  · exact fun h => absurd (sign_request_signature.2.1 1 2 _ _ _ h) (by decide)
  · exact fun h => absurd (sign_request_signature.2.2.1 7 "GET" "POST" _ _ h)
      (by decide)
  · exact fun h => absurd (sign_request_signature.2.2.2.1 7 _ "/api/markets"
      "/api/orders" _ h) (by decide)
  · exact fun h => absurd (sign_request_signature.2.2.2.2 7 _ _ [] [55] h)
      (by decide)

end FtxSpec
